import Mathlib

/-!
Verification of the usage reconciliation and aggregation engine of
`claude-usage-calendar.py` (plus the embedded JavaScript rollup helpers).

The development shallowly embeds the core pipeline:

* `parse_jsonl_files` (lines 51-134): per-line record parsing, max-merge
  reconciliation keyed by message id, and daily aggregation;
* `build_usage_data` (lines 148-173): the canonical output structure;
* the JavaScript helpers `aggregateByMonth`, `aggregateByYear`,
  `aggregateAllTime` and the peak-day loop of `renderAllTime`.

Two models of the per-line parser are given.  The typed model (`parseLine`)
covers inputs whose JSON fields carry the expected dynamic types, and is the
domain of the measurement-level claims.  The dynamic model (`lineStepDyn`)
embeds Python's dynamic field access on a JSON value type, including the
uncaught `AttributeError`/`TypeError` paths that escape the per-line handler
and are caught by the per-file handler.

Machine integers are modelled as `Nat`/`Int`; token counters are `Nat`
(non-negative JSON integers); timestamps are parsed from strings by a
faithful embedding of `datetime.fromisoformat` restricted to offset-aware
timestamps of the form `YYYY-MM-DD<sep>HH:MM:SS[.frac](+|-)HH:MM` (the `Z`
suffix is rewritten to `+00:00` beforehand, exactly as the source does with
`timestamp.replace("Z", "+00:00")`).
-/

/-! ## Association-list primitives (Python `dict` access, first match) -/

def alookup {α β : Type} [DecidableEq α] : List (α × β) → α → Option β
  | [], _ => none
  | (k, v) :: rest, key => if k = key then some v else alookup rest key

def aupdate {α β : Type} [DecidableEq α] : List (α × β) → α → β → List (α × β)
  | [], _, _ => []
  | (k, v) :: rest, key, w => if k = key then (k, w) :: rest else (k, v) :: aupdate rest key w

/-! ## Calendar arithmetic

`daysFromCivil`/`civilFromDays` convert between a proleptic-Gregorian
calendar date and a day count from 1970-01-01, mirroring what the Python
`datetime` library computes for us in `fromisoformat`/`astimezone`/
`strftime`. -/

def daysFromCivil (y : Int) (m d : Nat) : Int :=
  let y' : Int := if m ≤ 2 then y - 1 else y
  let era : Int := Int.fdiv y' 400
  let yoe : Int := y' - era * 400
  let mp : Nat := if 2 < m then m - 3 else m + 9
  let doy : Int := ((153 * mp + 2) / 5 + d - 1 : Nat)
  let doe : Int := yoe * 365 + yoe / 4 - yoe / 100 + doy
  era * 146097 + doe - 719468

def civilFromDays (z : Int) : Int × Nat × Nat :=
  let z' : Int := z + 719468
  let era : Int := Int.fdiv z' 146097
  let doe : Nat := (z' - era * 146097).toNat
  let yoe : Nat := (doe - doe / 1460 + doe / 36524 - doe / 146096) / 365
  let doy : Nat := doe - (365 * yoe + yoe / 4 - yoe / 100)
  let mp : Nat := (5 * doy + 2) / 153
  let d : Nat := doy - (153 * mp + 2) / 5 + 1
  let m : Nat := if mp < 10 then mp + 3 else mp - 9
  (era * 400 + yoe + (if m ≤ 2 then 1 else 0), m, d)

def isLeap (y : Nat) : Bool := (y % 4 = 0 && y % 100 ≠ 0) || y % 400 = 0

def daysInMonth (y m : Nat) : Nat :=
  if m = 2 then (if isLeap y then 29 else 28)
  else if m = 4 ∨ m = 6 ∨ m = 9 ∨ m = 11 then 30
  else 31

/-! ## Decimal rendering with zero padding

`natDigits n` is the decimal digit string of `n` (the result of Python
`str(n)` / JavaScript `String(n)`); `padZero w` pads on the left with `'0'`
to width `w` (Python `%Y`/`%m`/`%d` and JavaScript `padStart(2, '0')`). -/

def natDigitsAux : Nat → Nat → List Char
  | 0, _ => []
  | fuel + 1, n =>
    if n < 10 then [Nat.digitChar n]
    else natDigitsAux fuel (n / 10) ++ [Nat.digitChar (n % 10)]

def natDigits (n : Nat) : List Char := natDigitsAux (n + 1) n

def padZero (w : Nat) (l : List Char) : List Char :=
  List.replicate (w - l.length) '0' ++ l

/-- `dt_local.strftime("%Y-%m-%d")`: the zero-padded `YYYY-MM-DD` day key. -/
def strftimeYmd (y m d : Nat) : String :=
  ⟨padZero 4 (natDigits y) ++ '-' :: (padZero 2 (natDigits m) ++ '-' :: padZero 2 (natDigits d))⟩

/-! ## Timestamp parsing (lines 77-84 of the source)

`pyReplaceZ` is `timestamp.replace("Z", "+00:00")` (every `'Z'` character is
replaced, as `str.replace` replaces all occurrences of the one-character
pattern).  `pyFromIso` embeds `datetime.fromisoformat` on offset-aware
timestamps `YYYY-MM-DD<sep>HH:MM:SS[.digits](+|-)HH:MM`, returning the
instant as UTC epoch seconds; timestamps outside this shape (including
offset-naive ones, whose bucketing would depend on the ambient system time
zone) are not in the modelled subset and yield `none`. -/

def replZStep (c : Char) (acc : List Char) : List Char :=
  if c = 'Z' then '+' :: '0' :: '0' :: ':' :: '0' :: '0' :: acc else c :: acc

def pyReplaceZ (s : String) : String := ⟨s.data.foldr replZStep []⟩

def digitVal (c : Char) : Option Nat :=
  if '0' ≤ c ∧ c ≤ '9' then some (c.toNat - '0'.toNat) else none

def readN : Nat → Nat → List Char → Option (Nat × List Char)
  | 0, acc, cs => some (acc, cs)
  | _ + 1, _, [] => none
  | k + 1, acc, c :: cs =>
    match digitVal c with
    | none => none
    | some d => readN k (acc * 10 + d) cs

def expectChar (c : Char) : List Char → Option (List Char)
  | [] => none
  | x :: xs => if x = c then some xs else none

def skipFrac : List Char → List Char
  | '.' :: rest =>
    if (rest.takeWhile (fun c => decide ('0' ≤ c ∧ c ≤ '9'))).isEmpty then '.' :: rest
    else rest.dropWhile (fun c => decide ('0' ≤ c ∧ c ≤ '9'))
  | cs => cs

def parseOffsetLike (cs : List Char) : Option Int :=
  match readN 2 0 cs with
  | none => none
  | some (h, rest) =>
    match expectChar ':' rest with
    | none => none
    | some rest2 =>
      match readN 2 0 rest2 with
      | none => none
      | some (mi, rest3) =>
        if rest3.isEmpty ∧ h ≤ 23 ∧ mi ≤ 59 then some ((h : Int) * 60 + mi) else none

def parseOffset : List Char → Option Int
  | '+' :: rest => parseOffsetLike rest
  | '-' :: rest => (parseOffsetLike rest).map (fun n => -n)
  | _ => none

def pyFromIso (s : String) : Option Int :=
  match readN 4 0 s.data with
  | none => none
  | some (y, r1) =>
    match expectChar '-' r1 with
    | none => none
    | some r2 =>
      match readN 2 0 r2 with
      | none => none
      | some (mo, r3) =>
        match expectChar '-' r3 with
        | none => none
        | some r4 =>
          match readN 2 0 r4 with
          | none => none
          | some (d, r5) =>
            match r5 with
            | [] => none
            | _sep :: r6 =>
              match readN 2 0 r6 with
              | none => none
              | some (h, r7) =>
                match expectChar ':' r7 with
                | none => none
                | some r8 =>
                  match readN 2 0 r8 with
                  | none => none
                  | some (mi, r9) =>
                    match expectChar ':' r9 with
                    | none => none
                    | some r10 =>
                      match readN 2 0 r10 with
                      | none => none
                      | some (sec, r11) =>
                        match parseOffset (skipFrac r11) with
                        | none => none
                        | some offMin =>
                          if 1 ≤ y ∧ y ≤ 9999 ∧ 1 ≤ mo ∧ mo ≤ 12 ∧
                             1 ≤ d ∧ d ≤ daysInMonth y mo ∧ h ≤ 23 ∧ mi ≤ 59 ∧ sec ≤ 59 then
                            some (daysFromCivil y mo d * 86400 +
                                  ((h * 3600 + mi * 60 + sec : Nat) : Int) - offMin * 60)
                          else none

/-- Lines 77-84: parse the timestamp (after the `Z` rewrite), convert it to
the configured fixed-offset zone (`off` hours from UTC), and format the local
calendar day.  A local instant outside `datetime`'s year range 1-9999 raises
`OverflowError` inside the same `try` block, so it too yields `none`. -/
def tsToDate (off : Int) (ts : String) : Option String :=
  match pyFromIso (pyReplaceZ ts) with
  | none => none
  | some utc =>
    let localSec : Int := utc + off * 3600
    let days : Int := Int.fdiv localSec 86400
    let c := civilFromDays days
    if c.1 < 1 ∨ 9999 < c.1 then none
    else some (strftimeYmd c.1.toNat c.2.1 c.2.2)

/-! ## The typed per-line model (lines 59-111)

`Measurement` is one qualifying line's extracted data (the spec's
Measurement, with the day key already bucketed as the source computes it
per line).  `EventData` is one entry of the `message_data` dictionary. -/

structure Measurement where
  id : String
  date : String
  inp : Nat
  out : Nat
  cache_read : Nat
  cache_create : Nat
deriving DecidableEq, Repr

structure EventData where
  date : String
  inp : Nat
  out : Nat
  cache_read : Nat
  cache_create : Nat
deriving DecidableEq, Repr

abbrev MessageData := List (String × EventData)

/-- Lines 92-98: the entry created on first sight of a message id. -/
def initE (m : Measurement) : EventData :=
  ⟨m.date, m.inp, m.out, m.cache_read, m.cache_create⟩

/-- Lines 100-111: per-field `max`, the stored `date` untouched. -/
def mergeME (e : EventData) (m : Measurement) : EventData :=
  ⟨e.date, max e.inp m.inp, max e.out m.out,
   max e.cache_read m.cache_read, max e.cache_create m.cache_create⟩

/-- Lines 91-111: first sight inserts; later sights max-merge in place. -/
def step (md : MessageData) (m : Measurement) : MessageData :=
  match alookup md m.id with
  | none => md ++ [(m.id, initE m)]
  | some e => aupdate md m.id (mergeME e m)

def reconcile (ms : List Measurement) : MessageData := ms.foldl step []

structure PyMessage where
  id : String
  usage : List (String × Nat)
deriving DecidableEq, Repr

/-- One input line after `json.loads`, in the typed subset: `malformed` is a
line that raises `json.JSONDecodeError`; `entry ty msg ts` is a decoded JSON
object with optional `"type"` tag, optional `"message"` object (with its
`"id"` defaulted to `""` and `"usage"` defaulted to the empty dict, as
`msg.get` does), and `"timestamp"` defaulted to `""`. -/
inductive Line where
  | malformed
  | entry (type_tag : Option String) (message : Option PyMessage) (timestamp : String)
deriving DecidableEq, Repr

def usageGet (u : List (String × Nat)) (k : String) : Nat := (alookup u k).getD 0

/-- Lines 59-89: the per-line filter producing at most one `Measurement`.
Checks appear in source order: type tag and message presence, non-empty
usage, non-empty id, non-empty timestamp, parseable timestamp. -/
def parseLine (off : Int) : Line → Option Measurement
  | .malformed => none
  | .entry ty msg? ts =>
    if ty = some "assistant" then
      match msg? with
      | none => none
      | some msg =>
        if msg.usage.isEmpty then none
        else if msg.id = "" then none
        else if ts = "" then none
        else
          match tsToDate off ts with
          | none => none
          | some dk =>
            some ⟨msg.id, dk, usageGet msg.usage "input_tokens",
                  usageGet msg.usage "output_tokens",
                  usageGet msg.usage "cache_read_input_tokens",
                  usageGet msg.usage "cache_creation_input_tokens"⟩
    else none

def stepLine (off : Int) (md : MessageData) (ln : Line) : MessageData :=
  match parseLine off ln with
  | none => md
  | some m => step md m

def processLines (off : Int) (lines : List Line) : MessageData :=
  lines.foldl (stepLine off) []

/-! ## Daily aggregation (lines 118-134) -/

structure Totals where
  input_tokens : Nat
  output_tokens : Nat
  cache_read_input_tokens : Nat
  cache_creation_input_tokens : Nat
deriving DecidableEq, Repr

def zeroT : Totals := ⟨0, 0, 0, 0⟩

def addT (a b : Totals) : Totals :=
  ⟨a.input_tokens + b.input_tokens, a.output_tokens + b.output_tokens,
   a.cache_read_input_tokens + b.cache_read_input_tokens,
   a.cache_creation_input_tokens + b.cache_creation_input_tokens⟩

def countersT (e : EventData) : Totals := ⟨e.inp, e.out, e.cache_read, e.cache_create⟩

def sumT (l : List Totals) : Totals := l.foldr addT zeroT

/-- One iteration of the lines 127-132 loop: `daily_usage[date] += counters`,
with the `defaultdict` creating a zero record on first access. -/
def addDay (du : List (String × Totals)) (d : String) (e : EventData) :
    List (String × Totals) :=
  match alookup du d with
  | none => du ++ [(d, countersT e)]
  | some t => aupdate du d (addT t (countersT e))

def dailyUsage (md : MessageData) : List (String × Totals) :=
  md.foldl (fun du p => addDay du p.2.date p.2) []

/-- Lines 51-134, `parse_jsonl_files`: files are scanned sequentially into
one shared `message_data` table, then aggregated by day; the returned pair
is `(dict(daily_usage), len(message_data))`. -/
def parse_jsonl_files (off : Int) (files : List (List Line)) :
    List (String × Totals) × Nat :=
  let md := files.foldl (fun md f => f.foldl (stepLine off) md) []
  (dailyUsage md, md.length)

/-! ## The canonical output structure (lines 148-173) -/

def pyStrLtL : List Char → List Char → Bool
  | [], [] => false
  | [], _ :: _ => true
  | _ :: _, [] => false
  | a :: xs, b :: ys =>
    if a.toNat < b.toNat then true
    else if b.toNat < a.toNat then false
    else pyStrLtL xs ys

def pyStrLt (a b : String) : Bool := pyStrLtL a.data b.data

def sortInsert (s : String) : List String → List String
  | [] => [s]
  | t :: rest => if pyStrLt s t then s :: t :: rest else t :: sortInsert s rest

/-- Python `sorted` on string keys (ascending code-point order). -/
def pySorted (l : List String) : List String := l.foldr sortInsert []

structure UsageData where
  days_with_data : Nat
  unique_messages : Nat
  totals : Totals
  total_tokens : Nat
  range_start : Option String
  range_end : Option String
  daily_usage : List (String × Totals)
deriving DecidableEq, Repr

def build_usage_data (du : List (String × Totals)) (msgCount : Nat) : UsageData :=
  let dates := pySorted (du.map Prod.fst)
  let totals : Totals :=
    ⟨sumT (du.map Prod.snd) |>.input_tokens,
     sumT (du.map Prod.snd) |>.output_tokens,
     sumT (du.map Prod.snd) |>.cache_read_input_tokens,
     sumT (du.map Prod.snd) |>.cache_creation_input_tokens⟩
  { days_with_data := du.length
    unique_messages := msgCount
    totals := totals
    total_tokens := totals.input_tokens + totals.output_tokens +
      totals.cache_read_input_tokens + totals.cache_creation_input_tokens
    range_start := dates.head?
    range_end := dates.getLast?
    daily_usage := du }

/-! ## The JavaScript rollup helpers (lines 938-996)

`dailyData` is the JSON-embedded `daily_usage` mapping; `Object.entries`
iterates it in insertion order (the date keys are not array indices), which
is the order `dailyUsage` produces. -/

def getTotal (t : Totals) : Nat :=
  t.input_tokens + t.output_tokens + t.cache_read_input_tokens +
    t.cache_creation_input_tokens

/-- JavaScript `date.startsWith(prefixString)` (code-unit prefix test). -/
def jsStartsWith (p s : String) : Bool := p.data.isPrefixOf s.data

/-- The line 944 template string: a 2-left-zero-padded month after the year. -/
def monthKeyStart (year month : Nat) : String :=
  ⟨natDigits year ++ '-' :: padZero 2 (natDigits month)⟩

/-- The line 958 template string `year + "-"`. -/
def yearKeyStart (year : Nat) : String := ⟨natDigits year ++ ['-']⟩

/-- The shared loop shape of `aggregateByMonth`/`aggregateByYear`: start from
a zero record and add every entry whose date key passes the filter. -/
def sumMatching (f : String × Totals → Bool) (du : List (String × Totals)) : Totals :=
  du.foldl (fun result p => if f p then addT result p.2 else result) zeroT

/-- Lines 943-955, `aggregateByMonth`. -/
def aggregateByMonth (du : List (String × Totals)) (year month : Nat) : Totals :=
  sumMatching (fun p => jsStartsWith (monthKeyStart year month) p.1) du

/-- Lines 957-969, `aggregateByYear`. -/
def aggregateByYear (du : List (String × Totals)) (year : Nat) : Totals :=
  sumMatching (fun p => jsStartsWith (yearKeyStart year) p.1) du

/-- Lines 971-980, `aggregateAllTime`. -/
def aggregateAllTime (du : List (String × Totals)) : Totals :=
  du.foldl (fun result p => addT result p.2) zeroT

/-- One iteration of the lines 990-996 loop body: update `(peakDay,
peakAmount)` only when the entry's total is strictly larger. -/
def peakStep (acc : String × Nat) (p : String × Totals) : String × Nat :=
  if acc.2 < getTotal p.2 then (p.1, getTotal p.2) else acc

/-- Lines 988-996 of `renderAllTime`: the peak-day scan over
`Object.entries(dailyData)` in insertion order, starting at `("", 0)`. -/
def renderAllTimePeak (du : List (String × Totals)) : String × Nat :=
  du.foldl peakStep ("", 0)

/-! ## The dynamic per-line model (lines 55-116)

`JVal` is a decoded JSON value.  The inner `try` (line 59) catches only
`json.JSONDecodeError`; dynamic-type errors (`entry.get` on a non-dict,
`msg.get` on a non-dict message, `usage.get` on a truthy non-dict usage,
an unhashable id used as a dict key, `max` on incomparable counter types)
propagate to the per-file handler (line 115), which abandons the rest of
the file.  `lineStepDyn` returns the updated table together with a flag
that is `true` exactly when such an exception escapes the line.

Modelled subset: JSON numbers are integers (token counters in the logs are
ints; no floats are modelled) and Python's cross-type conveniences
(`True == 1`, `bool`/`int` comparisons in `max`) are outside the subset. -/

inductive JVal where
  | null
  | jbool (b : Bool)
  | num (n : Int)
  | str (s : String)
  | arr (xs : List JVal)
  | obj (fields : List (String × JVal))

/-- Python truthiness of a JSON value. -/
def truthy : JVal → Bool
  | .null => false
  | .jbool b => b
  | .num n => n ≠ 0
  | .str s => s ≠ ""
  | .arr xs => ¬xs.isEmpty
  | .obj fs => ¬fs.isEmpty

/-- Keys usable in a Python dict must be hashable: lists and dicts are not. -/
def hashableJ : JVal → Bool
  | .arr _ => false
  | .obj _ => false
  | _ => true

/-- Equality of hashable (scalar) JSON values, as dict key comparison. -/
def scalarEq : JVal → JVal → Bool
  | .null, .null => true
  | .jbool a, .jbool b => a = b
  | .num a, .num b => a = b
  | .str a, .str b => a = b
  | _, _ => false

/-- Python `max(existing, incoming)` = `incoming if existing < incoming else
existing`; comparing an int with a str raises `TypeError` (`none`). -/
def pyMaxD : JVal → JVal → Option JVal
  | .num a, .num b => some (.num (if a < b then b else a))
  | .str a, .str b => some (.str (if pyStrLt a b then b else a))
  | _, _ => none

structure DynEntry where
  date : String
  inp : JVal
  out : JVal
  cache_read : JVal
  cache_create : JVal

abbrev DynMD := List (JVal × DynEntry)

def dynLookup (md : DynMD) (k : JVal) : Option DynEntry :=
  (md.find? (fun p => scalarEq p.1 k)).map Prod.snd

def dynUpdate : DynMD → JVal → DynEntry → DynMD
  | [], _, _ => []
  | (k, v) :: rest, key, e =>
    if scalarEq k key then (k, e) :: rest else (k, v) :: dynUpdate rest key e

/-- Lines 91-111 in the dynamic model.  The four `max` assignments execute
in source order and mutate the stored entry one field at a time, so a
`TypeError` from a later field leaves the earlier fields updated. -/
def mergeDyn (md : DynMD) (k : JVal) (dk : String) (it ot crt cct : JVal) :
    DynMD × Bool :=
  match dynLookup md k with
  | none => (md ++ [(k, ⟨dk, it, ot, crt, cct⟩)], false)
  | some e =>
    match pyMaxD e.inp it with
    | none => (md, true)
    | some v1 =>
      let e1 : DynEntry := { e with inp := v1 }
      match pyMaxD e.out ot with
      | none => (dynUpdate md k e1, true)
      | some v2 =>
        let e2 : DynEntry := { e1 with out := v2 }
        match pyMaxD e.cache_read crt with
        | none => (dynUpdate md k e2, true)
        | some v3 =>
          let e3 : DynEntry := { e2 with cache_read := v3 }
          match pyMaxD e.cache_create cct with
          | none => (dynUpdate md k e3, true)
          | some v4 => (dynUpdate md k { e3 with cache_create := v4 }, false)

/-- `entry.get("type") == "assistant"`: Python `==` against a string is
`False` for a missing key (`None`) or any non-string value. -/
def typeIsAssistant (v : Option JVal) : Bool :=
  match v with
  | some (.str s) => s = "assistant"
  | _ => false

/-- Lines 59-114 on one line.  `none` stands for a line that raises
`json.JSONDecodeError`; `some v` is the decoded value. -/
def lineStepDyn (off : Int) (md : DynMD) : Option JVal → DynMD × Bool
  | none => (md, false)
  | some (.obj efields) =>
    if typeIsAssistant (alookup efields "type") then
      match alookup efields "message" with
      | none => (md, false)
      | some (.obj mfields) =>
        let usage := (alookup mfields "usage").getD (.obj [])
        if truthy usage then
          let msg_id := (alookup mfields "id").getD (.str "")
          if truthy msg_id then
            let timestamp := (alookup efields "timestamp").getD (.str "")
            if truthy timestamp then
              match timestamp with
              | .str ts =>
                match tsToDate off ts with
                | none => (md, false)
                | some dk =>
                  match usage with
                  | .obj ufields =>
                    let it := (alookup ufields "input_tokens").getD (.num 0)
                    let ot := (alookup ufields "output_tokens").getD (.num 0)
                    let crt := (alookup ufields "cache_read_input_tokens").getD (.num 0)
                    let cct := (alookup ufields "cache_creation_input_tokens").getD (.num 0)
                    if hashableJ msg_id then mergeDyn md msg_id dk it ot crt cct
                    else (md, true)
                  | _ => (md, true)
              | _ => (md, false)
            else (md, false)
          else (md, false)
        else (md, false)
      | some _ => (md, true)
    else (md, false)
  | some _ => (md, true)

/-- Lines 56-116 on one file: lines run sequentially; the first escaping
exception abandons the remainder of the file, keeping the table as mutated
so far. -/
def processFileDyn (off : Int) (md : DynMD) : List (Option JVal) → DynMD
  | [] => md
  | ln :: rest =>
    match lineStepDyn off md ln with
    | (md', false) => processFileDyn off md' rest
    | (md', true) => md'

def processFilesDyn (off : Int) (files : List (List (Option JVal))) : DynMD :=
  files.foldl (processFileDyn off) []

/-! ## Spec-side characterizations used by the theorems -/

/-- The resolved entry for an id, given the entry already stored (if any) and
the id's remaining measurements in arrival order. -/
def resolveFrom : Option EventData → List Measurement → Option EventData
  | some e, ms => some (ms.foldl mergeME e)
  | none, [] => none
  | none, m :: rest => some (rest.foldl mergeME (initE m))

/-- The daily total for a key, given the total already accumulated (if any)
and the remaining events for that key in table order. -/
def accDay : Option Totals → List (String × EventData) → Option Totals
  | some t, l => some (l.foldl (fun t q => addT t (countersT q.2)) t)
  | none, [] => none
  | none, p :: rest => some (rest.foldl (fun t q => addT t (countersT q.2)) (countersT p.2))





/-- The maximum of a list of naturals (0 when empty). -/
def natMaxL (l : List Nat) : Nat := l.foldl max 0

/-- The four counters stored for id `i` after reconciliation (`none` when the
id never appeared). -/
def countersOf (md : MessageData) (i : String) : Option (Nat × Nat × Nat × Nat) :=
  (alookup md i).map (fun e => (e.inp, e.out, e.cache_read, e.cache_create))

/-- The date stored for id `i` after reconciliation. -/
def dateOf (md : MessageData) (i : String) : Option String :=
  (alookup md i).map EventData.date

/-- The spec-predicted resolution: each counter is the maximum of that field
over the id's measurements, independently per field. -/
def maxCounters (ms : List Measurement) (i : String) : Option (Nat × Nat × Nat × Nat) :=
  let l := ms.filter (fun m => m.id == i)
  if l.isEmpty then none
  else some (natMaxL (l.map Measurement.inp), natMaxL (l.map Measurement.out),
             natMaxL (l.map Measurement.cache_read),
             natMaxL (l.map Measurement.cache_create))

/-! ## Association-list lemmas -/

lemma alookup_append {α β : Type} [DecidableEq α] (l₁ l₂ : List (α × β)) (i : α) :
    alookup (l₁ ++ l₂) i =
      match alookup l₁ i with
      | some v => some v
      | none => alookup l₂ i := by
  induction l₁ with
  | nil => simp [alookup]
  | cons p rest ih =>
    obtain ⟨k, v⟩ := p
    by_cases h : k = i <;> simp [alookup, h, ih]

lemma alookup_cons {α β : Type} [DecidableEq α] (k : α) (v : β) (l : List (α × β))
    (i : α) : alookup ((k, v) :: l) i = if k = i then some v else alookup l i := rfl

lemma alookup_aupdate_ne {α β : Type} [DecidableEq α] (l : List (α × β)) (k i : α)
    (w : β) (h : k ≠ i) : alookup (aupdate l k w) i = alookup l i := by
  induction l with
  | nil => simp [aupdate]
  | cons p rest ih =>
    obtain ⟨k', v⟩ := p
    by_cases hk : k' = k
    · subst hk
      simp [aupdate, alookup_cons, h]
    · simp [aupdate, hk, alookup_cons, ih]

lemma alookup_aupdate_eq {α β : Type} [DecidableEq α] (l : List (α × β)) (k : α)
    (w : β) (h : (alookup l k).isSome) : alookup (aupdate l k w) k = some w := by
  induction l with
  | nil => simp [alookup] at h
  | cons p rest ih =>
    obtain ⟨k', v⟩ := p
    by_cases hk : k' = k
    · subst hk
      simp [aupdate, alookup_cons]
    · rw [alookup_cons, if_neg hk] at h
      simp [aupdate, hk, alookup_cons, ih h]

lemma find?_eq_head?_filter {α : Type} (p : α → Bool) (l : List α) :
    l.find? p = (l.filter p).head? := by
  induction l with
  | nil => simp
  | cons x rest ih =>
    cases h : p x
    · rw [List.find?_cons, List.filter_cons, h]
      exact ih
    · rw [List.find?_cons, List.filter_cons, h]
      simp

/-! ## The reconciliation master lemma -/


lemma foldl_step_lookup (ms : List Measurement) (md : MessageData) (i : String) :
    alookup (ms.foldl step md) i =
      resolveFrom (alookup md i) (ms.filter (fun m => m.id == i)) := by
  induction ms generalizing md with
  | nil => cases h : alookup md i <;> simp [resolveFrom, h]
  | cons m rest ih =>
    have key : resolveFrom (alookup (step md m) i)
        (rest.filter (fun m => m.id == i)) =
        resolveFrom (alookup md i) ((m :: rest).filter (fun m => m.id == i)) := by
      by_cases hid : m.id = i
      · subst hid
        cases h : alookup md m.id with
        | none =>
          have hl : alookup (step md m) m.id = some (initE m) := by
            simp [step, h, alookup_append, alookup]
          simp [hl, h, resolveFrom, List.filter_cons]
        | some e =>
          have hl : alookup (step md m) m.id = some (mergeME e m) := by
            simp only [step, h]
            exact alookup_aupdate_eq md m.id _ (by simp [h])
          simp [hl, h, resolveFrom, List.filter_cons]
      · have hl : alookup (step md m) i = alookup md i := by
          cases h : alookup md m.id with
          | none =>
            simp only [step, h]
            rw [alookup_append]
            cases hmi : alookup md i <;> simp [hmi, alookup, hid]
          | some e => simp [step, h, alookup_aupdate_ne md m.id i _ hid]
        simp [hl, List.filter_cons, hid]
    simpa [List.foldl_cons, ih (step md m)] using key

/-! ## Totals algebra -/

lemma addT_zeroT (t : Totals) : addT t zeroT = t := by
  cases t; simp [addT, zeroT]

lemma zeroT_addT (t : Totals) : addT zeroT t = t := by
  cases t; simp [addT, zeroT]

lemma addT_assoc (a b c : Totals) : addT (addT a b) c = addT a (addT b c) := by
  cases a; cases b; cases c; simp [addT, Nat.add_assoc]

lemma addT_comm (a b : Totals) : addT a b = addT b a := by
  cases a; cases b; simp [addT, Nat.add_comm]

lemma addT_right_comm (a b c : Totals) : addT (addT a b) c = addT (addT a c) b := by
  rw [addT_assoc, addT_comm b c, ← addT_assoc]

/-! ## Daily aggregation lemmas -/


lemma foldl_addDay_lookup (md : List (String × EventData))
    (du : List (String × Totals)) (d : String) :
    alookup (md.foldl (fun du p => addDay du p.2.date p.2) du) d =
      accDay (alookup du d) (md.filter (fun p => p.2.date == d)) := by
  induction md generalizing du with
  | nil => cases h : alookup du d <;> simp [accDay, h]
  | cons p rest ih =>
    have key : accDay (alookup (addDay du p.2.date p.2) d)
        (rest.filter (fun q => q.2.date == d)) =
        accDay (alookup du d) ((p :: rest).filter (fun q => q.2.date == d)) := by
      by_cases hd : p.2.date = d
      · rw [hd]
        cases h : alookup du d with
        | none =>
          have hl : alookup (addDay du d p.2) d = some (countersT p.2) := by
            simp [addDay, h, alookup_append, alookup]
          simp [hl, h, accDay, List.filter_cons, hd]
        | some t =>
          have hl : alookup (addDay du d p.2) d = some (addT t (countersT p.2)) := by
            simp only [addDay, h]
            exact alookup_aupdate_eq du d _ (by simp [h])
          simp [hl, h, accDay, List.filter_cons, hd]
      · have hl : alookup (addDay du p.2.date p.2) d = alookup du d := by
          cases h : alookup du p.2.date with
          | none =>
            simp only [addDay, h]
            rw [alookup_append]
            cases hdu : alookup du d <;> simp [hdu, alookup, hd]
          | some t => simp [addDay, h, alookup_aupdate_ne du p.2.date d _ hd]
        simp [hl, List.filter_cons, hd]
    simpa [List.foldl_cons, ih (addDay du p.2.date p.2)] using key

lemma sumT_cons (a : Totals) (l : List Totals) : sumT (a :: l) = addT a (sumT l) := rfl

lemma foldl_addT_counters (l : List (String × EventData)) (t : Totals) :
    l.foldl (fun t q => addT t (countersT q.2)) t =
      addT t (sumT (l.map (fun q => countersT q.2))) := by
  induction l generalizing t with
  | nil => simp [sumT, addT_zeroT]
  | cons q rest ih =>
    simp only [List.foldl_cons, List.map_cons, ih, sumT_cons, addT_assoc]

/-! ## Max-fold lemmas -/

lemma foldl_max_from (l : List Nat) (a : Nat) :
    l.foldl max a = max a (natMaxL l) := by
  induction l generalizing a with
  | nil => simp [natMaxL]
  | cons x rest ih =>
    simp only [natMaxL, List.foldl_cons, ih (max a x), ih (max 0 x)]
    omega

lemma natMaxL_cons (x : Nat) (l : List Nat) : natMaxL (x :: l) = max x (natMaxL l) := by
  have h := foldl_max_from l (max 0 x)
  rw [natMaxL, List.foldl_cons, h]
  omega

lemma le_natMaxL {a : Nat} {l : List Nat} (h : a ∈ l) : a ≤ natMaxL l := by
  induction l with
  | nil => simp at h
  | cons x rest ih =>
    rw [natMaxL_cons]
    rcases List.mem_cons.mp h with h | h
    · omega
    · have := ih h; omega

lemma natMaxL_le {b : Nat} {l : List Nat} (h : ∀ a ∈ l, a ≤ b) : natMaxL l ≤ b := by
  induction l with
  | nil => simp [natMaxL]
  | cons x rest ih =>
    rw [natMaxL_cons]
    have h1 := h x (by simp)
    have h2 := ih (fun a ha => h a (by simp [ha]))
    omega

lemma natMaxL_mem_eq {l₁ l₂ : List Nat} (h : ∀ a, a ∈ l₁ ↔ a ∈ l₂) :
    natMaxL l₁ = natMaxL l₂ := by
  have h1 : natMaxL l₁ ≤ natMaxL l₂ :=
    natMaxL_le (fun a ha => le_natMaxL ((h a).mp ha))
  have h2 : natMaxL l₂ ≤ natMaxL l₁ :=
    natMaxL_le (fun a ha => le_natMaxL ((h a).mpr ha))
  omega

/-! ## Resolved-entry field characterizations -/

lemma foldl_mergeME_date (ms : List Measurement) (e : EventData) :
    (ms.foldl mergeME e).date = e.date := by
  induction ms generalizing e with
  | nil => rfl
  | cons m rest ih => simp [List.foldl_cons, ih, mergeME]

lemma foldl_mergeME_inp (ms : List Measurement) (e : EventData) :
    (ms.foldl mergeME e).inp = max e.inp (natMaxL (ms.map Measurement.inp)) := by
  induction ms generalizing e with
  | nil => simp [natMaxL]
  | cons m rest ih =>
    simp only [List.foldl_cons, List.map_cons, ih, mergeME, natMaxL_cons]
    omega

lemma foldl_mergeME_out (ms : List Measurement) (e : EventData) :
    (ms.foldl mergeME e).out = max e.out (natMaxL (ms.map Measurement.out)) := by
  induction ms generalizing e with
  | nil => simp [natMaxL]
  | cons m rest ih =>
    simp only [List.foldl_cons, List.map_cons, ih, mergeME, natMaxL_cons]
    omega

lemma foldl_mergeME_cache_read (ms : List Measurement) (e : EventData) :
    (ms.foldl mergeME e).cache_read =
      max e.cache_read (natMaxL (ms.map Measurement.cache_read)) := by
  induction ms generalizing e with
  | nil => simp [natMaxL]
  | cons m rest ih =>
    simp only [List.foldl_cons, List.map_cons, ih, mergeME, natMaxL_cons]
    omega

lemma foldl_mergeME_cache_create (ms : List Measurement) (e : EventData) :
    (ms.foldl mergeME e).cache_create =
      max e.cache_create (natMaxL (ms.map Measurement.cache_create)) := by
  induction ms generalizing e with
  | nil => simp [natMaxL]
  | cons m rest ih =>
    simp only [List.foldl_cons, List.map_cons, ih, mergeME, natMaxL_cons]
    omega

lemma countersOf_reconcile (ms : List Measurement) (i : String) :
    countersOf (reconcile ms) i = maxCounters ms i := by
  have h0 : alookup ([] : MessageData) i = none := rfl
  cases hf : ms.filter (fun m => m.id == i) with
  | nil =>
    simp [countersOf, reconcile, foldl_step_lookup, hf, h0, resolveFrom, maxCounters]
  | cons m rest =>
    simp only [countersOf, reconcile, foldl_step_lookup, hf, h0, resolveFrom,
      maxCounters, Option.map_some', List.map_cons]
    rw [foldl_mergeME_inp, foldl_mergeME_out, foldl_mergeME_cache_read,
        foldl_mergeME_cache_create]
    simp [initE, natMaxL_cons]

lemma dateOf_reconcile (ms : List Measurement) (i : String) :
    dateOf (reconcile ms) i =
      (ms.find? (fun m => m.id == i)).map Measurement.date := by
  have h0 : alookup ([] : MessageData) i = none := rfl
  rw [find?_eq_head?_filter]
  cases hf : ms.filter (fun m => m.id == i) with
  | nil => simp [dateOf, reconcile, foldl_step_lookup, hf, h0, resolveFrom]
  | cons m rest =>
    simp [dateOf, reconcile, foldl_step_lookup, hf, h0, resolveFrom,
      foldl_mergeME_date, initE]

lemma processLines_eq_reconcile (off : Int) (lines : List Line) :
    processLines off lines = reconcile (lines.filterMap (parseLine off)) := by
  rw [processLines, reconcile]
  generalize ([] : MessageData) = md
  induction lines generalizing md with
  | nil => rfl
  | cons ln rest ih =>
    cases h : parseLine off ln with
    | none => simp [List.foldl_cons, List.filterMap_cons, h, stepLine, ih]
    | some m => simp [List.foldl_cons, List.filterMap_cons, h, stepLine, ih]

/-! ## Conservation lemmas -/

lemma addDay_cons_ne (k : String) (t : Totals) (du : List (String × Totals))
    (d : String) (e : EventData) (h : k ≠ d) :
    addDay ((k, t) :: du) d e = (k, t) :: addDay du d e := by
  rw [addDay, addDay, alookup_cons, if_neg h]
  cases alookup du d <;> simp [aupdate, h]

lemma grandSum_addDay (du : List (String × Totals)) (d : String) (e : EventData) :
    sumT ((addDay du d e).map Prod.snd) = addT (sumT (du.map Prod.snd)) (countersT e) := by
  induction du with
  | nil => simp [addDay, alookup, sumT, addT_zeroT, zeroT_addT]
  | cons p rest ih =>
    obtain ⟨k, t⟩ := p
    by_cases hk : k = d
    · subst hk
      have hstep : addDay ((k, t) :: rest) k e = (k, addT t (countersT e)) :: rest := by
        simp [addDay, alookup_cons, aupdate]
      rw [hstep]
      simp only [List.map_cons, sumT_cons]
      rw [addT_right_comm]
    · rw [addDay_cons_ne k t rest d e hk]
      simp only [List.map_cons, sumT_cons, ih, ← addT_assoc]

lemma dailyUsage_conservation (md : MessageData) :
    sumT ((dailyUsage md).map Prod.snd) = sumT (md.map (fun p => countersT p.2)) := by
  rw [dailyUsage]
  have key : ∀ (l : List (String × EventData)) (du : List (String × Totals)),
      sumT ((l.foldl (fun du p => addDay du p.2.date p.2) du).map Prod.snd) =
        addT (sumT (du.map Prod.snd)) (sumT (l.map (fun p => countersT p.2))) := by
    intro l
    induction l with
    | nil => intro du; simp [sumT, addT_zeroT]
    | cons p rest ih =>
      intro du
      simp only [List.foldl_cons, List.map_cons, sumT_cons, ih, grandSum_addDay]
      rw [addT_assoc]
  simpa [sumT, zeroT_addT] using key md []

lemma maxCounters_mem_eq (ms₁ ms₂ : List Measurement) (i : String)
    (h : ∀ m, m ∈ ms₁ ↔ m ∈ ms₂) : maxCounters ms₁ i = maxCounters ms₂ i := by
  have hf : ∀ m, m ∈ ms₁.filter (fun m => m.id == i) ↔
      m ∈ ms₂.filter (fun m => m.id == i) := by
    intro m
    simp only [List.mem_filter]
    exact and_congr_left (fun _ => h m)
  have hmap : ∀ f : Measurement → Nat,
      natMaxL ((ms₁.filter (fun m => m.id == i)).map f) =
        natMaxL ((ms₂.filter (fun m => m.id == i)).map f) := by
    intro f
    apply natMaxL_mem_eq
    intro a
    simp only [List.mem_map]
    constructor
    · rintro ⟨m, hm, rfl⟩; exact ⟨m, (hf m).mp hm, rfl⟩
    · rintro ⟨m, hm, rfl⟩; exact ⟨m, (hf m).mpr hm, rfl⟩
  have hempty : (ms₁.filter (fun m => m.id == i)).isEmpty =
      (ms₂.filter (fun m => m.id == i)).isEmpty := by
    cases h1 : ms₁.filter (fun m => m.id == i) with
    | nil =>
      cases h2 : ms₂.filter (fun m => m.id == i) with
      | nil => rfl
      | cons x xs =>
        exfalso
        have hx := (hf x).mpr (by rw [h2]; exact List.mem_cons_self x xs)
        rw [h1] at hx
        simp at hx
    | cons x xs =>
      cases h2 : ms₂.filter (fun m => m.id == i) with
      | nil =>
        exfalso
        have hx := (hf x).mp (by rw [h1]; exact List.mem_cons_self x xs)
        rw [h2] at hx
        simp at hx
      | cons y ys => rfl
  simp only [maxCounters, hmap, hempty]

/-! ## Claim theorems C1-C3 -/

/-- C1: the four resolved counters of each event id depend only on the set of
distinct Measurements for that id, not on their emission count or order (so
duplicated emissions and permutations give identical resolved counters), and
each counter is the maximum value observed independently per field. -/
theorem reconcile_counters_set_determined (ms₁ ms₂ : List Measurement) (i : String)
    (h : ∀ m, m ∈ ms₁ ↔ m ∈ ms₂) :
    countersOf (reconcile ms₁) i = maxCounters ms₁ i ∧
    countersOf (reconcile ms₁) i = countersOf (reconcile ms₂) i := by
  refine ⟨countersOf_reconcile ms₁ i, ?_⟩
  rw [countersOf_reconcile, countersOf_reconcile]
  exact maxCounters_mem_eq ms₁ ms₂ i h

/-- C1 witness: Scenario A plus a duplicated emission — the list
`[a, b, a]` (with `a` fed twice) resolves id `"m1"` exactly as the
permutation `[b, a]` does, with counters `(max 10 8, max 0 5, 0, 0)`. -/
theorem reconcile_counters_set_determined_witness :
    (countersOf (reconcile [⟨"m1", "2025-01-05", 10, 0, 0, 0⟩,
        ⟨"m1", "2025-01-05", 8, 5, 0, 0⟩, ⟨"m1", "2025-01-05", 10, 0, 0, 0⟩]) "m1" =
      maxCounters [⟨"m1", "2025-01-05", 10, 0, 0, 0⟩,
        ⟨"m1", "2025-01-05", 8, 5, 0, 0⟩, ⟨"m1", "2025-01-05", 10, 0, 0, 0⟩] "m1" ∧
     countersOf (reconcile [⟨"m1", "2025-01-05", 10, 0, 0, 0⟩,
        ⟨"m1", "2025-01-05", 8, 5, 0, 0⟩, ⟨"m1", "2025-01-05", 10, 0, 0, 0⟩]) "m1" =
      countersOf (reconcile [⟨"m1", "2025-01-05", 8, 5, 0, 0⟩,
        ⟨"m1", "2025-01-05", 10, 0, 0, 0⟩]) "m1") ∧
    countersOf (reconcile [⟨"m1", "2025-01-05", 8, 5, 0, 0⟩,
        ⟨"m1", "2025-01-05", 10, 0, 0, 0⟩]) "m1" = some (10, 5, 0, 0) := by
  refine ⟨reconcile_counters_set_determined _ _ "m1" ?_, by decide⟩
  intro m
  simp only [List.mem_cons, List.not_mem_nil, or_false]
  tauto

/-- C2: the date key of a resolved event is the bucketed timestamp of the
first Measurement seen for that id; later Measurements for the same id never
re-derive or change it, and the date carried by any parsed Measurement is
exactly the timezone-bucketed form of its own timestamp. -/
theorem reconcile_date_first_seen (off : Int) (lines : List Line) (i : String) :
    dateOf (processLines off lines) i =
      ((lines.filterMap (parseLine off)).find? (fun m => m.id == i)).map
        Measurement.date ∧
    (∀ ty msg ts m, parseLine off (.entry ty msg ts) = some m →
      tsToDate off ts = some m.date) := by
  constructor
  · rw [processLines_eq_reconcile, dateOf_reconcile]
  · intro ty msg ts m hm
    by_cases hty : ty = some "assistant"
    · rcases msg with _ | msg
      · simp [parseLine, hty] at hm
      · simp only [parseLine, hty, if_true] at hm
        split_ifs at hm
        cases htd : tsToDate off ts with
        | none => rw [htd] at hm; simp at hm
        | some dk =>
          rw [htd] at hm
          simp only [Option.some.injEq] at hm
          rw [← hm]
    · simp [parseLine, hty] at hm

/-- C2 witness: Scenario E — id `"a"` is seen first on 2025-01-05, a later
emission's own timestamp maps to 2025-01-06, yet the resolved date stays
2025-01-05; and the parsed measurement of the second line carries its own
bucketed day. -/
theorem reconcile_date_first_seen_witness :
    dateOf (processLines 0
      [Line.entry (some "assistant") (some ⟨"a", [("input_tokens", 5)]⟩)
          "2025-01-05T12:00:00Z",
       Line.entry (some "assistant") (some ⟨"a", [("input_tokens", 7)]⟩)
          "2025-01-06T12:00:00Z"]) "a" = some "2025-01-05" ∧
    tsToDate 0 "2025-01-06T12:00:00Z" =
      some (Measurement.date ⟨"a", "2025-01-06", 7, 0, 0, 0⟩) := by
  have h := reconcile_date_first_seen 0
    [Line.entry (some "assistant") (some ⟨"a", [("input_tokens", 5)]⟩)
        "2025-01-05T12:00:00Z",
     Line.entry (some "assistant") (some ⟨"a", [("input_tokens", 7)]⟩)
        "2025-01-06T12:00:00Z"] "a"
  refine ⟨h.1.trans (by decide), ?_⟩
  exact h.2 (some "assistant") (some ⟨"a", [("input_tokens", 7)]⟩)
    "2025-01-06T12:00:00Z" ⟨"a", "2025-01-06", 7, 0, 0, 0⟩ (by decide)

/-- C3: after reconciliation, each daily-totals entry is the elementwise sum
of the counters of the resolved events assigned to that day (and a day absent
from the mapping has no such event), and the sum of all daily totals equals
the sum of all resolved events' counters — nothing is lost or duplicated by
aggregation. -/
theorem dailyTotals_sum_and_conservation (md : MessageData) :
    (∀ d, alookup (dailyUsage md) d =
      (if (md.filter (fun p => p.2.date == d)).isEmpty then none
       else some (sumT ((md.filter (fun p => p.2.date == d)).map
          (fun p => countersT p.2))))) ∧
    sumT ((dailyUsage md).map Prod.snd) = sumT (md.map (fun p => countersT p.2)) := by
  refine ⟨?_, dailyUsage_conservation md⟩
  intro d
  have h0 : alookup ([] : List (String × Totals)) d = none := rfl
  cases hf : md.filter (fun p => p.2.date == d) with
  | nil => simp [dailyUsage, foldl_addDay_lookup, hf, h0, accDay]
  | cons p rest =>
    simp only [dailyUsage, foldl_addDay_lookup, hf, h0, accDay, List.map_cons]
    rw [foldl_addT_counters, sumT_cons]
    simp

/-! ## Claim theorems C7, C8 -/

lemma foldr_replZ_no_z (l init : List Char) (h : ∀ c ∈ l, c ≠ 'Z') :
    l.foldr replZStep init = l ++ init := by
  induction l with
  | nil => rfl
  | cons c rest ih =>
    have hc := h c (by simp)
    simp [List.foldr_cons, replZStep, hc, ih (fun d hd => h d (by simp [hd]))]

lemma pyReplaceZ_z_suffix (s : String) (h : ∀ c ∈ s.data, c ≠ 'Z') :
    pyReplaceZ (s ++ "Z") = s ++ "+00:00" := by
  apply String.ext
  show ((s ++ "Z").data.foldr replZStep []) = (s ++ "+00:00").data
  rw [String.data_append, String.data_append, List.foldr_append]
  have hz : ("Z".data.foldr replZStep []) = "+00:00".data := rfl
  rw [hz]
  exact foldr_replZ_no_z s.data "+00:00".data h

lemma pyReplaceZ_offset_suffix (s : String) (h : ∀ c ∈ s.data, c ≠ 'Z') :
    pyReplaceZ (s ++ "+00:00") = s ++ "+00:00" := by
  apply String.ext
  show ((s ++ "+00:00").data.foldr replZStep []) = (s ++ "+00:00").data
  rw [String.data_append, List.foldr_append]
  have hz : ("+00:00".data.foldr replZStep []) = "+00:00".data := rfl
  rw [hz]
  exact foldr_replZ_no_z s.data "+00:00".data h

/-- C7: a trailing `"Z"` is parsed exactly as an explicit `"+00:00"` offset
(for any timestamp body not itself containing `'Z'`, since `str.replace`
rewrites every occurrence), and day bucketing applies the fixed UTC offset
before extracting the day: with offset -7, `"2025-01-01T02:00:00Z"` lands on
local day `"2024-12-31"`. -/
theorem timestamp_z_equiv_and_bucketing (s : String) (h : ∀ c ∈ s.data, c ≠ 'Z') :
    (∀ off : Int, tsToDate off (s ++ "Z") = tsToDate off (s ++ "+00:00")) ∧
    tsToDate (-7) "2025-01-01T02:00:00Z" = some "2024-12-31" := by
  constructor
  · intro off
    rw [tsToDate, tsToDate, pyReplaceZ_z_suffix s h, pyReplaceZ_offset_suffix s h]
  · decide

/-- C7 witness at the concrete Scenario C timestamp. -/
theorem timestamp_z_equiv_and_bucketing_witness :
    tsToDate (-7) ("2025-01-01T02:00:00" ++ "Z") =
      tsToDate (-7) ("2025-01-01T02:00:00" ++ "+00:00") ∧
    tsToDate (-7) "2025-01-01T02:00:00Z" = some "2024-12-31" := by
  have h := timestamp_z_equiv_and_bucketing "2025-01-01T02:00:00" (by decide)
  exact ⟨h.1 (-7), h.2⟩

lemma foldl_stepLine_none (off : Int) (f : List Line)
    (h : ∀ ln ∈ f, parseLine off ln = none) :
    ∀ md : MessageData, f.foldl (stepLine off) md = md := by
  induction f with
  | nil => intro md; rfl
  | cons ln rest ih =>
    intro md
    have h1 : parseLine off ln = none := h ln (by simp)
    simp [List.foldl_cons, stepLine, h1, ih (fun l hl => h l (by simp [hl]))]

lemma foldl_files_none (off : Int) :
    ∀ (files : List (List Line)) (md : MessageData),
      (∀ f ∈ files, ∀ ln ∈ f, parseLine off ln = none) →
      files.foldl (fun md f => f.foldl (stepLine off) md) md = md := by
  intro files
  induction files with
  | nil => intro md _; rfl
  | cons f rest ih =>
    intro md h
    simp only [List.foldl_cons]
    rw [foldl_stepLine_none off f (h f (by simp)) md]
    exact ih md (fun g hg => h g (by simp [hg]))

/-- C8: with an empty file set, or no qualifying record in any file, the
output structure is well-defined with zero days, zero unique messages, all
totals zero, an empty daily mapping, and a null/null date range — no error,
no abort. -/
theorem empty_input_well_defined (off : Int) (files : List (List Line))
    (h : ∀ f ∈ files, ∀ ln ∈ f, parseLine off ln = none) :
    parse_jsonl_files off files = ([], 0) ∧
    build_usage_data (parse_jsonl_files off files).1 (parse_jsonl_files off files).2 =
      { days_with_data := 0, unique_messages := 0, totals := zeroT, total_tokens := 0,
        range_start := none, range_end := none, daily_usage := [] } := by
  have h1 : parse_jsonl_files off files = ([], 0) := by
    simp only [parse_jsonl_files]
    rw [foldl_files_none off files [] h]
    rfl
  exact ⟨h1, by rw [h1]; rfl⟩

/-- C8 witness: one file holding only a malformed line and a non-qualifying
line. -/
theorem empty_input_well_defined_witness :
    parse_jsonl_files 0 [[Line.malformed, Line.entry none none "x"]] = ([], 0) ∧
    build_usage_data
        (parse_jsonl_files 0 [[Line.malformed, Line.entry none none "x"]]).1
        (parse_jsonl_files 0 [[Line.malformed, Line.entry none none "x"]]).2 =
      { days_with_data := 0, unique_messages := 0, totals := zeroT, total_tokens := 0,
        range_start := none, range_end := none, daily_usage := [] } :=
  empty_input_well_defined 0 [[Line.malformed, Line.entry none none "x"]] (by decide)

/-! ## Claim C9 (corrected) -/

/-- C9 counterexample: a qualifying line whose (non-empty) usage block
carries `input_tokens = 0` produces an exposed day whose four-counter sum is
0, refuting "every exposed day has strictly positive data". -/
theorem zero_total_day_exposed :
    (parse_jsonl_files 0 [[Line.entry (some "assistant")
        (some ⟨"z1", [("input_tokens", 0)]⟩) "2025-01-05T12:00:00Z"]]).1 =
      [("2025-01-05", zeroT)] ∧
    ¬ (∀ p ∈ (parse_jsonl_files 0 [[Line.entry (some "assistant")
        (some ⟨"z1", [("input_tokens", 0)]⟩) "2025-01-05T12:00:00Z"]]).1,
        0 < getTotal p.2) := by
  refine ⟨by decide, fun hcl => ?_⟩
  have hz := hcl ("2025-01-05", zeroT) (by decide)
  simp [getTotal, zeroT] at hz

/-- C9 (amended): every date key present in the exposed daily mapping is the
date of at least one resolved event, and its entry is the elementwise sum of
those events' counters — which may be zero, since a qualifying record may
carry all-zero counters. -/
theorem exposed_day_has_event (md : MessageData) (d : String) (t : Totals)
    (h : alookup (dailyUsage md) d = some t) :
    (∃ p ∈ md, p.2.date = d) ∧
    t = sumT ((md.filter (fun p => p.2.date == d)).map (fun p => countersT p.2)) := by
  have h0 : alookup ([] : List (String × Totals)) d = none := rfl
  rw [dailyUsage, foldl_addDay_lookup, h0] at h
  cases hf : md.filter (fun p => p.2.date == d) with
  | nil => rw [hf] at h; simp [accDay] at h
  | cons p rest =>
    rw [hf] at h
    simp only [accDay, Option.some.injEq] at h
    constructor
    · have hp : p ∈ md.filter (fun q => q.2.date == d) := by
        rw [hf]; exact List.mem_cons_self _ _
      have hmem := List.mem_filter.mp hp
      exact ⟨p, hmem.1, by simpa using hmem.2⟩
    · rw [← h, foldl_addT_counters, List.map_cons, sumT_cons]

/-- C9 amended witness at a one-event table. -/
theorem exposed_day_has_event_witness :
    (∃ p ∈ [("a", (⟨"2025-01-05", 1, 2, 3, 4⟩ : EventData))], p.2.date = "2025-01-05") ∧
    (⟨1, 2, 3, 4⟩ : Totals) =
      sumT ((([("a", (⟨"2025-01-05", 1, 2, 3, 4⟩ : EventData))]).filter
        (fun p => p.2.date == "2025-01-05")).map (fun p => countersT p.2)) :=
  exposed_day_has_event [("a", ⟨"2025-01-05", 1, 2, 3, 4⟩)] "2025-01-05"
    ⟨1, 2, 3, 4⟩ (by decide)

/-! ## Claim C10 -/

/-- C10: a decoded object line whose message field (if present) is an object
and whose timestamp is missing, empty, of non-string type, or an unparseable
string contributes nothing: the `message_data` table is returned unchanged
(and no exception escapes), even when the line's id is already present —
timestamp validation runs before the duplicate-id merge. -/
theorem bad_timestamp_line_noop (off : Int) (md : DynMD)
    (efields : List (String × JVal))
    (hmsg : ∀ v, alookup efields "message" = some v → ∃ mf, v = JVal.obj mf)
    (hts : ∀ s, (alookup efields "timestamp").getD (JVal.str "") = JVal.str s →
      tsToDate off s = none) :
    lineStepDyn off md (some (.obj efields)) = (md, false) := by
  simp only [lineStepDyn]
  cases hty : typeIsAssistant (alookup efields "type")
  · simp
  · simp only [if_true]
    cases hm : alookup efields "message" with
    | none => simp
    | some v =>
      obtain ⟨mf, rfl⟩ := hmsg v hm
      cases htr : truthy ((alookup mf "usage").getD (JVal.obj []))
      · simp [htr]
      · simp only [htr, if_true]
        cases hid : truthy ((alookup mf "id").getD (JVal.str ""))
        · simp [hid]
        · simp only [hid, if_true]
          cases htt : truthy ((alookup efields "timestamp").getD (JVal.str ""))
          · simp [htt]
          · cases ht : (alookup efields "timestamp").getD (JVal.str "") with
            | str s => simp [ht, htt, hts s ht]
            | null => simp [ht, htt]
            | jbool b => simp [ht, htt]
            | num n => simp [ht, htt]
            | arr xs => simp [ht, htt]
            | obj fs => simp [ht, htt]

/-- C10 witness: a line re-carrying the already-seen id `"m1"` with large
counters but an unparseable timestamp leaves the table untouched. -/
theorem bad_timestamp_line_noop_witness :
    lineStepDyn 0
      [(JVal.str "m1", ⟨"2025-01-05", .num 10, .num 2, .num 3, .num 4⟩)]
      (some (.obj [("type", .str "assistant"),
        ("message", .obj [("id", .str "m1"),
          ("usage", .obj [("input_tokens", .num 999)])]),
        ("timestamp", .str "garbage")])) =
      ([(JVal.str "m1", ⟨"2025-01-05", .num 10, .num 2, .num 3, .num 4⟩)], false) := by
  apply bad_timestamp_line_noop
  · intro v hv
    have heval : alookup [("type", JVal.str "assistant"),
        ("message", JVal.obj [("id", JVal.str "m1"),
          ("usage", JVal.obj [("input_tokens", JVal.num 999)])]),
        ("timestamp", JVal.str "garbage")] "message" =
        some (JVal.obj [("id", JVal.str "m1"),
          ("usage", JVal.obj [("input_tokens", JVal.num 999)])]) := by
      simp [alookup]
    rw [heval] at hv
    exact ⟨_, (Option.some.inj hv).symm⟩
  · intro s hs
    have heval : (alookup [("type", JVal.str "assistant"),
        ("message", JVal.obj [("id", JVal.str "m1"),
          ("usage", JVal.obj [("input_tokens", JVal.num 999)])]),
        ("timestamp", JVal.str "garbage")] "timestamp").getD (JVal.str "") =
        JVal.str "garbage" := by
      simp [alookup]
    rw [heval] at hs
    injection hs with h3
    rw [← h3]
    decide

/-! ## Claim C5 (corrected) -/

lemma le_foldl_max (l : List Nat) (a : Nat) : a ≤ l.foldl max a := by
  rw [foldl_max_from]
  omega

lemma foldl_max_attained (l : List Nat) (a : Nat) :
    l.foldl max a = a ∨ l.foldl max a ∈ l := by
  induction l generalizing a with
  | nil => left; rfl
  | cons x rest ih =>
    rw [List.foldl_cons]
    rcases ih (max a x) with h | h
    · rw [h]
      rcases max_choice a x with h2 | h2
      · left; exact h2
      · right; rw [h2]; exact List.mem_cons_self x rest
    · right; exact List.mem_cons_of_mem x h

lemma find?_congr_mem {α : Type} (l : List α) (p q : α → Bool)
    (h : ∀ a ∈ l, p a = q a) : l.find? p = l.find? q := by
  induction l with
  | nil => rfl
  | cons x rest ih =>
    rw [List.find?_cons, List.find?_cons, h x (by simp)]
    cases hqx : q x
    · exact ih (fun a ha => h a (by simp [ha]))
    · rfl

lemma foldl_peakStep (du : List (String × Totals)) :
    ∀ (pd : String) (pa M : Nat),
      M = (du.map (fun p => getTotal p.2)).foldl max pa →
      du.foldl peakStep (pd, pa) =
        (if M = pa then (pd, pa)
         else (((du.find? (fun p => decide (M ≤ getTotal p.2))).map Prod.fst).getD pd, M)) := by
  induction du with
  | nil =>
    intro pd pa M hM
    simp only [List.map_nil, List.foldl_nil] at hM
    simp [hM]
  | cons p rest ih =>
    intro pd pa M hM
    simp only [List.map_cons, List.foldl_cons] at hM
    by_cases hlt : pa < getTotal p.2
    · have hstep : peakStep (pd, pa) p = (p.1, getTotal p.2) := by simp [peakStep, hlt]
      have hM' : M = (rest.map (fun p => getTotal p.2)).foldl max (getTotal p.2) := by
        rw [hM]
        congr 1
        omega
      rw [List.foldl_cons, hstep, ih p.1 (getTotal p.2) M hM']
      have hMget : getTotal p.2 ≤ M := by
        rw [hM']
        exact le_foldl_max _ _
      by_cases hMt : M = getTotal p.2
      · rw [if_pos hMt]
        have hMpa : M ≠ pa := by omega
        rw [if_neg hMpa, List.find?_cons]
        have hpred : decide (M ≤ getTotal p.2) = true := by simp; omega
        rw [hpred]
        simp [hMt]
      · rw [if_neg hMt]
        have hMgt : getTotal p.2 < M := by omega
        have hMpa : M ≠ pa := by omega
        rw [if_neg hMpa, List.find?_cons]
        have hpred : decide (M ≤ getTotal p.2) = false := by simp; omega
        rw [hpred]
        have hatt := foldl_max_attained (rest.map (fun p => getTotal p.2)) (getTotal p.2)
        rw [← hM'] at hatt
        rcases hatt with h | h
        · omega
        · obtain ⟨q, hq, hqt⟩ := List.mem_map.mp h
          have hsome : (rest.find? (fun p => decide (M ≤ getTotal p.2))).isSome := by
            rw [List.find?_isSome]
            exact ⟨q, hq, by simp; omega⟩
          obtain ⟨q', hq'⟩ := Option.isSome_iff_exists.mp hsome
          rw [hq']
          simp
    · have hstep : peakStep (pd, pa) p = (pd, pa) := by simp [peakStep, hlt]
      have hM' : M = (rest.map (fun p => getTotal p.2)).foldl max pa := by
        rw [hM]
        congr 1
        omega
      rw [List.foldl_cons, hstep, ih pd pa M hM']
      by_cases hMpa : M = pa
      · simp [hMpa]
      · rw [if_neg hMpa, if_neg hMpa, List.find?_cons]
        have hpaM : pa ≤ M := by
          rw [hM']
          exact le_foldl_max _ _
        have hpred : decide (M ≤ getTotal p.2) = false := by simp; omega
        rw [hpred]

/-- C5 counterexample: two days tie at the maximal single-day total 5, the
daily mapping's insertion order (first sight of each day during aggregation)
lists `"2025-02-01"` before `"2025-01-01"`, and the peak day reported is
`"2025-02-01"` — not the earliest maximal date `"2025-01-01"` the claim
requires. -/
theorem peak_tie_not_earliest :
    (parse_jsonl_files 0
      [[Line.entry (some "assistant") (some ⟨"b", [("input_tokens", 5)]⟩)
          "2025-02-01T12:00:00Z",
        Line.entry (some "assistant") (some ⟨"a", [("input_tokens", 5)]⟩)
          "2025-01-01T12:00:00Z"]]).1 =
      [("2025-02-01", ⟨5, 0, 0, 0⟩), ("2025-01-01", ⟨5, 0, 0, 0⟩)] ∧
    renderAllTimePeak (parse_jsonl_files 0
      [[Line.entry (some "assistant") (some ⟨"b", [("input_tokens", 5)]⟩)
          "2025-02-01T12:00:00Z",
        Line.entry (some "assistant") (some ⟨"a", [("input_tokens", 5)]⟩)
          "2025-01-01T12:00:00Z"]]).1 = ("2025-02-01", 5) ∧
    pyStrLt "2025-01-01" "2025-02-01" = true :=
  ⟨by decide, by decide, by decide⟩

/-- C5 (amended): the peak amount is the maximum single-day total over the
mapping (0 when no day exists), and the peak day is the *first* date in the
mapping's insertion order whose total equals that maximum — ties are broken
by first appearance in the mapping, not by earliest date — and the empty
string when no day has a strictly positive total. -/
theorem renderAllTimePeak_characterization (du : List (String × Totals)) :
    renderAllTimePeak du =
      (if natMaxL (du.map (fun p => getTotal p.2)) = 0 then ("", 0)
       else
        (((du.find? (fun p =>
            getTotal p.2 == natMaxL (du.map (fun q => getTotal q.2)))).map
              Prod.fst).getD "",
         natMaxL (du.map (fun p => getTotal p.2)))) := by
  have h := foldl_peakStep du "" 0 (natMaxL (du.map (fun p => getTotal p.2)))
    (by rw [natMaxL])
  rw [renderAllTimePeak, h]
  have hcong : du.find? (fun p =>
      decide (natMaxL (du.map (fun q => getTotal q.2)) ≤ getTotal p.2)) =
      du.find? (fun p =>
      getTotal p.2 == natMaxL (du.map (fun q => getTotal q.2))) := by
    apply find?_congr_mem
    intro p hp
    have hle : getTotal p.2 ≤ natMaxL (du.map (fun q => getTotal q.2)) :=
      le_natMaxL (List.mem_map_of_mem _ hp)
    by_cases hEq : getTotal p.2 = natMaxL (du.map (fun q => getTotal q.2))
    · rw [hEq]
      simp
    · have h1 : (getTotal p.2 == natMaxL (du.map (fun q => getTotal q.2))) = false := by
        simp [hEq]
      have h2 : decide (natMaxL (du.map (fun q => getTotal q.2)) ≤ getTotal p.2) = false := by
        simp
        omega
      rw [h1, h2]
  rw [hcong]

/-! ## Claim C6: decimal-rendering and prefix lemmas -/

lemma natDigitsAux_eq : ∀ (f₁ : Nat), ∀ (f₂ n : Nat), n < f₁ → n < f₂ →
    natDigitsAux f₁ n = natDigitsAux f₂ n := by
  intro f₁
  induction f₁ with
  | zero => intro f₂ n h1 _; omega
  | succ f ih =>
    intro f₂ n h1 h2
    cases f₂ with
    | zero => omega
    | succ g =>
      by_cases hn : n < 10
      · simp [natDigitsAux, hn]
      · have hdiv : n / 10 < n := Nat.div_lt_self (by omega) (by omega)
        simp only [natDigitsAux, hn, if_false]
        rw [ih g (n / 10) (by omega) (by omega)]

lemma natDigits_lt10 (n : Nat) (h : n < 10) : natDigits n = [Nat.digitChar n] := by
  simp [natDigits, natDigitsAux, h]

lemma natDigits_ge10 (n : Nat) (h : 10 ≤ n) :
    natDigits n = natDigits (n / 10) ++ [Nat.digitChar (n % 10)] := by
  have hdiv : n / 10 < n := Nat.div_lt_self (by omega) (by omega)
  rw [natDigits, natDigits]
  have h1 : natDigitsAux (n + 1) n =
      natDigitsAux n (n / 10) ++ [Nat.digitChar (n % 10)] := by
    simp [natDigitsAux, Nat.not_lt.mpr h]
  rw [h1, natDigitsAux_eq n (n / 10 + 1) (n / 10) (by omega) (by omega)]

lemma natDigits_ne_nil (n : Nat) : natDigits n ≠ [] := by
  by_cases h : n < 10
  · rw [natDigits_lt10 n h]; simp
  · rw [natDigits_ge10 n (by omega)]; simp

lemma digitChar_inj_lt10 : ∀ a, a < 10 → ∀ b, b < 10 →
    Nat.digitChar a = Nat.digitChar b → a = b := by decide

lemma natDigits_inj : ∀ m n, natDigits m = natDigits n → m = n := by
  intro m
  induction m using Nat.strong_induction_on with
  | _ m ih =>
    intro n h
    by_cases hm : m < 10
    · by_cases hn : n < 10
      · rw [natDigits_lt10 m hm, natDigits_lt10 n hn] at h
        exact digitChar_inj_lt10 m hm n hn (List.singleton_injective h)
      · rw [natDigits_lt10 m hm, natDigits_ge10 n (by omega)] at h
        have hlen := congrArg List.length h
        simp at hlen
        have := natDigits_ne_nil (n / 10)
        cases hd : natDigits (n / 10) with
        | nil => exact absurd hd this
        | cons c cs => rw [hd] at hlen; simp at hlen
    · by_cases hn : n < 10
      · rw [natDigits_ge10 m (by omega), natDigits_lt10 n hn] at h
        have hlen := congrArg List.length h
        simp at hlen
        have := natDigits_ne_nil (m / 10)
        cases hd : natDigits (m / 10) with
        | nil => exact absurd hd this
        | cons c cs => rw [hd] at hlen; simp at hlen
      · rw [natDigits_ge10 m (by omega), natDigits_ge10 n (by omega)] at h
        have hlast := congrArg List.getLast? h
        rw [List.getLast?_concat, List.getLast?_concat] at hlast
        have hmod : m % 10 = n % 10 :=
          digitChar_inj_lt10 (m % 10) (by omega) (n % 10) (by omega)
            (Option.some.inj hlast)
        have hinit := congrArg List.dropLast h
        rw [List.dropLast_concat, List.dropLast_concat] at hinit
        have hdivlt : m / 10 < m := Nat.div_lt_self (by omega) (by omega)
        have hdiv := ih (m / 10) hdivlt (n / 10) hinit
        omega

lemma natDigits_length1 (n : Nat) (h : n < 10) : (natDigits n).length = 1 := by
  rw [natDigits_lt10 n h]; rfl

lemma natDigits_length2 (n : Nat) (h1 : 10 ≤ n) (h2 : n ≤ 99) :
    (natDigits n).length = 2 := by
  rw [natDigits_ge10 n h1, natDigits_lt10 (n / 10) (by omega)]
  rfl

lemma natDigits_length4 (n : Nat) (h1 : 1000 ≤ n) (h2 : n ≤ 9999) :
    (natDigits n).length = 4 := by
  rw [natDigits_ge10 n (by omega), natDigits_ge10 (n / 10) (by omega)]
  simp [natDigits_length2 (n / 10 / 10) (by omega) (by omega)]

lemma padZero_noop (w : Nat) (l : List Char) (h : l.length = w) : padZero w l = l := by
  simp [padZero, h]

lemma padZero2_length (m : Nat) (h : m ≤ 99) : (padZero 2 (natDigits m)).length = 2 := by
  by_cases h1 : m < 10
  · rw [padZero, natDigits_length1 m h1]
    simp [natDigits_length1 m h1]
  · rw [padZero_noop 2 _ (natDigits_length2 m (by omega) h)]
    exact natDigits_length2 m (by omega) h

lemma append_prefix_iff (a : List Char) : ∀ (b c d : List Char), a.length = b.length →
    ((a ++ c) <+: (b ++ d) ↔ a = b ∧ c <+: d) := by
  induction a with
  | nil =>
    intro b c d h
    cases b with
    | nil => simp
    | cons y ys => simp at h
  | cons x xs ih =>
    intro b c d h
    cases b with
    | nil => simp at h
    | cons y ys =>
      simp only [List.cons_append, List.cons_prefix_cons]
      rw [ih ys c d (by simpa using h)]
      simp only [List.cons.injEq]
      tauto

lemma pad2_inj_le12 : ∀ M, M ≤ 12 → ∀ m, m ≤ 12 →
    (padZero 2 (natDigits M) = padZero 2 (natDigits m) ↔ M = m) := by decide

lemma jsStartsWith_year (Y y m d : Nat) (hY1 : 1000 ≤ Y) (hY2 : Y ≤ 9999)
    (hy1 : 1000 ≤ y) (hy2 : y ≤ 9999) :
    (jsStartsWith (yearKeyStart Y) (strftimeYmd y m d) = true) ↔ Y = y := by
  have hshape : jsStartsWith (yearKeyStart Y) (strftimeYmd y m d) =
      (natDigits Y ++ ['-']).isPrefixOf (padZero 4 (natDigits y) ++
        '-' :: (padZero 2 (natDigits m) ++ '-' :: padZero 2 (natDigits d))) := rfl
  rw [hshape, List.isPrefixOf_iff_prefix,
      padZero_noop 4 _ (natDigits_length4 y hy1 hy2),
      append_prefix_iff (natDigits Y) (natDigits y) ['-']
        ('-' :: (padZero 2 (natDigits m) ++ '-' :: padZero 2 (natDigits d)))
        (by rw [natDigits_length4 Y hY1 hY2, natDigits_length4 y hy1 hy2])]
  constructor
  · rintro ⟨h1, _⟩
    exact natDigits_inj Y y h1
  · rintro rfl
    exact ⟨rfl, List.cons_prefix_cons.mpr ⟨rfl, List.nil_prefix⟩⟩


lemma jsStartsWith_month (Y M y m d : Nat) (hY1 : 1000 ≤ Y) (hY2 : Y ≤ 9999)
    (hy1 : 1000 ≤ y) (hy2 : y ≤ 9999) (hM : M ≤ 12) (hm : m ≤ 12) :
    (jsStartsWith (monthKeyStart Y M) (strftimeYmd y m d) = true) ↔ (Y = y ∧ M = m) := by
  have hshape : jsStartsWith (monthKeyStart Y M) (strftimeYmd y m d) =
      (natDigits Y ++ '-' :: padZero 2 (natDigits M)).isPrefixOf
        (padZero 4 (natDigits y) ++
          '-' :: (padZero 2 (natDigits m) ++ '-' :: padZero 2 (natDigits d))) := rfl
  have e1 : natDigits Y ++ '-' :: padZero 2 (natDigits M) =
      (natDigits Y ++ ['-']) ++ padZero 2 (natDigits M) := by
    rw [List.append_assoc]
    rfl
  have e2 : natDigits y ++
      '-' :: (padZero 2 (natDigits m) ++ '-' :: padZero 2 (natDigits d)) =
      (natDigits y ++ ['-']) ++
        (padZero 2 (natDigits m) ++ '-' :: padZero 2 (natDigits d)) := by
    rw [List.append_assoc]
    rfl
  rw [hshape, List.isPrefixOf_iff_prefix,
      padZero_noop 4 _ (natDigits_length4 y hy1 hy2), e1, e2,
      append_prefix_iff _ _ _ _ (by
        simp [natDigits_length4 Y hY1 hY2, natDigits_length4 y hy1 hy2]),
      List.append_left_inj]
  have e3 := List.append_nil (padZero 2 (natDigits M))
  rw [← e3, append_prefix_iff _ _ _ _ (by
        rw [padZero2_length M (by omega), padZero2_length m (by omega)])]
  constructor
  · rintro ⟨h1, h2, _⟩
    exact ⟨natDigits_inj Y y h1, (pad2_inj_le12 M hM m hm).mp h2⟩
  · rintro ⟨rfl, rfl⟩
    exact ⟨rfl, rfl, List.nil_prefix⟩

lemma sumMatching_acc (f : String × Totals → Bool) (du : List (String × Totals)) :
    ∀ acc, du.foldl (fun r p => if f p then addT r p.2 else r) acc =
      addT acc (sumMatching f du) := by
  induction du with
  | nil => intro acc; simp [sumMatching, addT_zeroT]
  | cons p rest ih =>
    intro acc
    simp only [sumMatching, List.foldl_cons]
    by_cases hf : f p
    · simp only [hf, if_true]
      rw [ih (addT acc p.2), ih (addT zeroT p.2), zeroT_addT, addT_assoc]
    · rw [if_neg hf, if_neg hf, ih acc]
      rfl

lemma sumMatching_cons (f : String × Totals → Bool) (p : String × Totals)
    (du : List (String × Totals)) :
    sumMatching f (p :: du) = addT (if f p then p.2 else zeroT) (sumMatching f du) := by
  simp only [sumMatching, List.foldl_cons]
  by_cases hf : f p
  · simp only [hf, if_true]
    rw [sumMatching_acc f du (addT zeroT p.2), zeroT_addT]
    rfl
  · rw [if_neg hf, if_neg hf, zeroT_addT]

lemma sumMatching_zero (f : String × Totals → Bool) (du : List (String × Totals))
    (h : ∀ p ∈ du, f p = false) : sumMatching f du = zeroT := by
  induction du with
  | nil => rfl
  | cons p rest ih =>
    rw [sumMatching_cons, h p (List.mem_cons_self p rest)]
    simp only [Bool.false_eq_true, if_false]
    rw [zeroT_addT]
    exact ih (fun q hq => h q (List.mem_cons_of_mem p hq))

lemma aggregateAllTime_acc (du : List (String × Totals)) :
    ∀ acc, du.foldl (fun r p => addT r p.2) acc = addT acc (aggregateAllTime du) := by
  induction du with
  | nil => intro acc; simp [aggregateAllTime, addT_zeroT]
  | cons p rest ih =>
    intro acc
    simp only [aggregateAllTime, List.foldl_cons]
    rw [ih (addT acc p.2), ih (addT zeroT p.2), zeroT_addT, addT_assoc]

lemma aggregateAllTime_cons (p : String × Totals) (du : List (String × Totals)) :
    aggregateAllTime (p :: du) = addT p.2 (aggregateAllTime du) := by
  simp only [aggregateAllTime, List.foldl_cons]
  rw [aggregateAllTime_acc du (addT zeroT p.2), zeroT_addT]
  rfl

lemma sumT_map_zero {β : Type} (L : List β) (g : β → Totals)
    (h : ∀ x ∈ L, g x = zeroT) : sumT (L.map g) = zeroT := by
  induction L with
  | nil => rfl
  | cons x rest ih =>
    rw [List.map_cons, sumT_cons, h x (List.mem_cons_self x rest), zeroT_addT]
    exact ih (fun y hy => h y (List.mem_cons_of_mem x hy))

lemma sumT_map_update (L : List Nat) (g g' : Nat → Totals) (t : Totals) :
    ∀ m : Nat, L.Nodup → m ∈ L → (∀ x ∈ L, x ≠ m → g' x = g x) →
    g' m = addT t (g m) → sumT (L.map g') = addT t (sumT (L.map g)) := by
  induction L with
  | nil => intro m _ hm _ _; simp at hm
  | cons x rest ih =>
    intro m hnd hm hsame hup
    rw [List.map_cons, List.map_cons, sumT_cons, sumT_cons]
    rcases List.mem_cons.mp hm with hx | hx
    · subst hx
      have hrest : ∀ y ∈ rest, g' y = g y := by
        intro y hy
        refine hsame y (List.mem_cons_of_mem m hy) ?_
        intro hcontra
        subst hcontra
        exact (List.nodup_cons.mp hnd).1 hy
      rw [hup, List.map_congr_left hrest, addT_assoc]
    · have hx_ne : x ≠ m := by
        intro hcontra
        subst hcontra
        exact (List.nodup_cons.mp hnd).1 hx
      rw [hsame x (List.mem_cons_self x rest) hx_ne,
          ih m (List.nodup_cons.mp hnd).2 hx
            (fun y hy => hsame y (List.mem_cons_of_mem x hy)) hup,
          ← addT_assoc, addT_comm (g x) t, addT_assoc]

lemma aggregateByYear_cons (p : String × Totals) (du : List (String × Totals)) (Y : Nat) :
    aggregateByYear (p :: du) Y =
      addT (if jsStartsWith (yearKeyStart Y) p.1 then p.2 else zeroT)
        (aggregateByYear du Y) := by
  rw [aggregateByYear, sumMatching_cons]
  rfl

lemma aggregateByMonth_cons (p : String × Totals) (du : List (String × Totals))
    (Y M : Nat) :
    aggregateByMonth (p :: du) Y M =
      addT (if jsStartsWith (monthKeyStart Y M) p.1 then p.2 else zeroT)
        (aggregateByMonth du Y M) := by
  rw [aggregateByMonth, sumMatching_cons]
  rfl

lemma year_eq_sum_months (Y : Nat) (hY1 : 1000 ≤ Y) (hY2 : Y ≤ 9999) :
    ∀ du : List (String × Totals),
      (∀ p ∈ du, ∃ y m d, (1000 ≤ y ∧ y ≤ 9999) ∧ (1 ≤ m ∧ m ≤ 12) ∧
        p.1 = strftimeYmd y m d) →
      aggregateByYear du Y =
        sumT ((List.range' 1 12).map (fun M => aggregateByMonth du Y M)) := by
  intro du
  induction du with
  | nil =>
    intro _
    rw [sumT_map_zero (List.range' 1 12) (fun M => aggregateByMonth [] Y M)
      (fun M _ => rfl)]
    rfl
  | cons p rest ih =>
    intro hkeys
    obtain ⟨y, m, d, hy, hm12, hp1⟩ := hkeys p (List.mem_cons_self p rest)
    have ihr := ih (fun q hq => hkeys q (List.mem_cons_of_mem p hq))
    rw [aggregateByYear_cons]
    by_cases hYy : Y = y
    · have hyc : jsStartsWith (yearKeyStart Y) p.1 = true := by
        rw [hp1]
        exact (jsStartsWith_year Y y m d hY1 hY2 hy.1 hy.2).mpr hYy
      rw [if_pos hyc]
      have hup : aggregateByMonth (p :: rest) Y m = addT p.2 (aggregateByMonth rest Y m) := by
        have hcond : jsStartsWith (monthKeyStart Y m) p.1 = true := by
          rw [hp1]
          exact (jsStartsWith_month Y m y m d hY1 hY2 hy.1 hy.2 hm12.2 hm12.2).mpr
            ⟨hYy, rfl⟩
        rw [aggregateByMonth_cons, if_pos hcond]
      have hsame : ∀ M ∈ List.range' 1 12, M ≠ m →
          aggregateByMonth (p :: rest) Y M = aggregateByMonth rest Y M := by
        intro M hMr hMne
        have hM12 : M ≤ 12 := by
          rw [List.mem_range'_1] at hMr
          omega
        have hcond : jsStartsWith (monthKeyStart Y M) p.1 = false := by
          cases hbv : jsStartsWith (monthKeyStart Y M) p.1
          · rfl
          · exfalso
            rw [hp1] at hbv
            exact hMne ((jsStartsWith_month Y M y m d hY1 hY2 hy.1 hy.2
              hM12 hm12.2).mp hbv).2
        rw [aggregateByMonth_cons]
        simp only [hcond, Bool.false_eq_true, if_false]
        rw [zeroT_addT]
      rw [sumT_map_update (List.range' 1 12) (fun M => aggregateByMonth rest Y M)
            (fun M => aggregateByMonth (p :: rest) Y M) p.2 m (List.nodup_range' ..)
            (by rw [List.mem_range'_1]; omega) hsame hup, ihr]
    · have hyc : jsStartsWith (yearKeyStart Y) p.1 = false := by
        cases hbv : jsStartsWith (yearKeyStart Y) p.1
        · rfl
        · exfalso
          rw [hp1] at hbv
          exact hYy ((jsStartsWith_year Y y m d hY1 hY2 hy.1 hy.2).mp hbv)
      simp only [hyc, Bool.false_eq_true, if_false]
      rw [zeroT_addT, ihr]
      congr 1
      apply List.map_congr_left
      intro M hMr
      have hM12 : M ≤ 12 := by
        rw [List.mem_range'_1] at hMr
        omega
      have hcond : jsStartsWith (monthKeyStart Y M) p.1 = false := by
        cases hbv : jsStartsWith (monthKeyStart Y M) p.1
        · rfl
        · exfalso
          rw [hp1] at hbv
          exact hYy ((jsStartsWith_month Y M y m d hY1 hY2 hy.1 hy.2
            hM12 hm12.2).mp hbv).1
      rw [aggregateByMonth_cons]
      simp only [hcond, Bool.false_eq_true, if_false]
      rw [zeroT_addT]

lemma alltime_eq_sum_years (Ys : List Nat) (hnd : Ys.Nodup)
    (hb : ∀ y ∈ Ys, 1000 ≤ y ∧ y ≤ 9999) :
    ∀ du : List (String × Totals),
      (∀ p ∈ du, ∃ y m d, (1000 ≤ y ∧ y ≤ 9999) ∧ (1 ≤ m ∧ m ≤ 12) ∧ y ∈ Ys ∧
        p.1 = strftimeYmd y m d) →
      aggregateAllTime du = sumT (Ys.map (fun Y => aggregateByYear du Y)) := by
  intro du
  induction du with
  | nil =>
    intro _
    rw [sumT_map_zero Ys (fun Y => aggregateByYear [] Y) (fun Y _ => rfl)]
    rfl
  | cons p rest ih =>
    intro hkeys
    obtain ⟨y, m, d, hy, hm12, hyYs, hp1⟩ := hkeys p (List.mem_cons_self p rest)
    have ihr := ih (fun q hq => hkeys q (List.mem_cons_of_mem p hq))
    rw [aggregateAllTime_cons]
    have hup : aggregateByYear (p :: rest) y = addT p.2 (aggregateByYear rest y) := by
      have hcond : jsStartsWith (yearKeyStart y) p.1 = true := by
        rw [hp1]
        exact (jsStartsWith_year y y m d hy.1 hy.2 hy.1 hy.2).mpr rfl
      rw [aggregateByYear_cons, if_pos hcond]
    have hsame : ∀ Y ∈ Ys, Y ≠ y →
        aggregateByYear (p :: rest) Y = aggregateByYear rest Y := by
      intro Y hY hne
      have hcond : jsStartsWith (yearKeyStart Y) p.1 = false := by
        cases hbv : jsStartsWith (yearKeyStart Y) p.1
        · rfl
        · exfalso
          rw [hp1] at hbv
          exact hne ((jsStartsWith_year Y y m d (hb Y hY).1 (hb Y hY).2
            hy.1 hy.2).mp hbv)
      rw [aggregateByYear_cons]
      simp only [hcond, Bool.false_eq_true, if_false]
      rw [zeroT_addT]
    rw [sumT_map_update Ys (fun Y => aggregateByYear rest Y)
          (fun Y => aggregateByYear (p :: rest) Y) p.2 y hnd hyYs hsame hup, ihr]

/-- C6: over any daily mapping whose keys are genuine zero-padded
`YYYY-MM-DD` day keys (4-digit years, months 1-12) with years drawn from a
duplicate-free list `Ys`, the year rollup equals the elementwise sum of the
twelve month rollups, the all-time total equals the sum of the year rollups
over the years present, and a month rollup matched by no key is zero-filled. -/
theorem rollup_consistency (du : List (String × Totals)) (Y : Nat) (Ys : List Nat)
    (hY : 1000 ≤ Y ∧ Y ≤ 9999) (hnd : Ys.Nodup)
    (hYs : ∀ y ∈ Ys, 1000 ≤ y ∧ y ≤ 9999)
    (hkeys : ∀ p ∈ du, ∃ y m d, (1000 ≤ y ∧ y ≤ 9999) ∧ (1 ≤ m ∧ m ≤ 12) ∧
      y ∈ Ys ∧ p.1 = strftimeYmd y m d) :
    aggregateByYear du Y =
      sumT ((List.range' 1 12).map (fun M => aggregateByMonth du Y M)) ∧
    aggregateAllTime du = sumT (Ys.map (fun Y => aggregateByYear du Y)) ∧
    (∀ M, (∀ p ∈ du, jsStartsWith (monthKeyStart Y M) p.1 = false) →
      aggregateByMonth du Y M = zeroT) := by
  refine ⟨year_eq_sum_months Y hY.1 hY.2 du (fun p hp => ?_),
          alltime_eq_sum_years Ys hnd hYs du hkeys,
          fun M hM => sumMatching_zero _ du hM⟩
  obtain ⟨y, m, d, h1, h2, _, h4⟩ := hkeys p hp
  exact ⟨y, m, d, h1, h2, h4⟩

/-- C6 witness at a one-day mapping for 2025-01-05. -/
theorem rollup_consistency_witness :
    aggregateByYear [("2025-01-05", (⟨1, 2, 3, 4⟩ : Totals))] 2025 =
      sumT ((List.range' 1 12).map (fun M =>
        aggregateByMonth [("2025-01-05", (⟨1, 2, 3, 4⟩ : Totals))] 2025 M)) ∧
    aggregateAllTime [("2025-01-05", (⟨1, 2, 3, 4⟩ : Totals))] =
      sumT ([2025].map (fun Y =>
        aggregateByYear [("2025-01-05", (⟨1, 2, 3, 4⟩ : Totals))] Y)) ∧
    (∀ M, (∀ p ∈ [("2025-01-05", (⟨1, 2, 3, 4⟩ : Totals))],
        jsStartsWith (monthKeyStart 2025 M) p.1 = false) →
      aggregateByMonth [("2025-01-05", (⟨1, 2, 3, 4⟩ : Totals))] 2025 M = zeroT) :=
  rollup_consistency [("2025-01-05", ⟨1, 2, 3, 4⟩)] 2025 [2025]
    (by omega) (by decide) (by decide)
    (by
      intro p hp
      rcases List.mem_cons.mp hp with hp1 | hp2
      · exact ⟨2025, 1, 5, by omega, by omega, by simp, by rw [hp1]; decide⟩
      · simp at hp2)

/-! ## Claim C4 (corrected) -/

/-- C4 counterexample: a line that is valid JSON but of the wrong dynamic
type (here the JSON array `[]`) raises `AttributeError` at `entry.get`,
which only the per-file handler catches — so the valid qualifying line right
after it is *not* parsed, refuting "parsing continues with the next line of
the same file".  An invalid-JSON line (raising `json.JSONDecodeError`, the
`none` case) by contrast is skipped and parsing does continue. -/
theorem wrong_type_line_aborts_file :
    (processFileDyn 0 [] [some (JVal.arr []),
      some (JVal.obj [("type", JVal.str "assistant"),
        ("message", JVal.obj [("id", JVal.str "m1"),
          ("usage", JVal.obj [("input_tokens", JVal.num 10)])]),
        ("timestamp", JVal.str "2025-01-05T12:00:00Z")])]).length = 0 ∧
    (processFileDyn 0 [] [none,
      some (JVal.obj [("type", JVal.str "assistant"),
        ("message", JVal.obj [("id", JVal.str "m1"),
          ("usage", JVal.obj [("input_tokens", JVal.num 10)])]),
        ("timestamp", JVal.str "2025-01-05T12:00:00Z")])]).length = 1 := by
  exact ⟨rfl, rfl⟩

/-- C4 (amended): a line that fails JSON decoding, or decodes to an object
that is not assistant-tagged, lacks a `message` key, or whose object-typed
message has a falsy usage, falsy id, or falsy/unparseable timestamp, is
silently skipped (no exception escapes) and the file scan continues with the
next line; a fully qualifying fresh-id line appends exactly one entry whose
absent counter fields default to 0.  (Wrong dynamic types at the top level,
message, truthy usage, or an unhashable id instead raise past the line —
see the counterexample.) -/
theorem parser_skip_semantics (off : Int) (md : DynMD)
    (efields mfields ufields : List (String × JVal)) (ts : String)
    (ln : Option JVal) (rest : List (Option JVal)) :
    lineStepDyn off md none = (md, false) ∧
    (typeIsAssistant (alookup efields "type") = false →
      lineStepDyn off md (some (.obj efields)) = (md, false)) ∧
    (alookup efields "message" = none →
      lineStepDyn off md (some (.obj efields)) = (md, false)) ∧
    (alookup efields "message" = some (.obj mfields) →
      truthy ((alookup mfields "usage").getD (.obj [])) = false →
      lineStepDyn off md (some (.obj efields)) = (md, false)) ∧
    (alookup efields "message" = some (.obj mfields) →
      truthy ((alookup mfields "id").getD (.str "")) = false →
      lineStepDyn off md (some (.obj efields)) = (md, false)) ∧
    (alookup efields "message" = some (.obj mfields) →
      truthy ((alookup efields "timestamp").getD (.str "")) = false →
      lineStepDyn off md (some (.obj efields)) = (md, false)) ∧
    (alookup efields "message" = some (.obj mfields) →
      (alookup efields "timestamp").getD (.str "") = .str ts →
      tsToDate off ts = none →
      lineStepDyn off md (some (.obj efields)) = (md, false)) ∧
    (lineStepDyn off md ln = (md, false) →
      processFileDyn off md (ln :: rest) = processFileDyn off md rest) ∧
    (typeIsAssistant (alookup efields "type") = true →
      alookup efields "message" = some (.obj mfields) →
      (alookup mfields "usage").getD (.obj []) = .obj ufields →
      ufields ≠ [] →
      truthy ((alookup mfields "id").getD (.str "")) = true →
      (alookup efields "timestamp").getD (.str "") = .str ts →
      ∀ dk, tsToDate off ts = some dk →
      hashableJ ((alookup mfields "id").getD (.str "")) = true →
      dynLookup md ((alookup mfields "id").getD (.str "")) = none →
      lineStepDyn off md (some (.obj efields)) =
        (md ++ [((alookup mfields "id").getD (.str ""),
          ⟨dk, (alookup ufields "input_tokens").getD (.num 0),
               (alookup ufields "output_tokens").getD (.num 0),
               (alookup ufields "cache_read_input_tokens").getD (.num 0),
               (alookup ufields "cache_creation_input_tokens").getD (.num 0)⟩)],
         false)) := by
  refine ⟨rfl, ?_, ?_, ?_, ?_, ?_, ?_, ?_, ?_⟩
  · intro h
    simp [lineStepDyn, h]
  · intro h
    cases hty : typeIsAssistant (alookup efields "type") <;>
      simp [lineStepDyn, hty, h]
  · intro hm hu
    cases hty : typeIsAssistant (alookup efields "type") <;>
      simp [lineStepDyn, hty, hm, hu]
  · intro hm hid
    cases hty : typeIsAssistant (alookup efields "type")
    · simp [lineStepDyn, hty]
    · cases htr : truthy ((alookup mfields "usage").getD (.obj [])) <;>
        simp [lineStepDyn, hty, hm, htr, hid]
  · intro hm htt
    cases hty : typeIsAssistant (alookup efields "type")
    · simp [lineStepDyn, hty]
    · cases htr : truthy ((alookup mfields "usage").getD (.obj []))
      · simp [lineStepDyn, hty, hm, htr]
      · cases hid : truthy ((alookup mfields "id").getD (.str "")) <;>
          simp [lineStepDyn, hty, hm, htr, hid, htt]
  · intro hm hts htd
    cases hty : typeIsAssistant (alookup efields "type")
    · simp [lineStepDyn, hty]
    · cases htr : truthy ((alookup mfields "usage").getD (.obj []))
      · simp [lineStepDyn, hty, hm, htr]
      · cases hid : truthy ((alookup mfields "id").getD (.str ""))
        · simp [lineStepDyn, hty, hm, htr, hid]
        · cases htt : truthy ((alookup efields "timestamp").getD (.str "")) <;>
            simp [lineStepDyn, hty, hm, htr, hid, htt, hts, htd]
  · intro h
    simp [processFileDyn, h]
  · intro h1 hm hu hne hid hts dk htd hhash hlook
    have htr : truthy ((alookup mfields "usage").getD (.obj [])) = true := by
      rw [hu]
      cases ufields with
      | nil => exact absurd rfl hne
      | cons u us => rfl
    have hts_ne : ts ≠ "" := by
      intro hcontra
      rw [hcontra] at htd
      have : tsToDate off "" = none := rfl
      rw [this] at htd
      exact Option.noConfusion htd
    have htt : truthy ((alookup efields "timestamp").getD (.str "")) = true := by
      rw [hts]
      simp [truthy, hts_ne]
    have htr2 : truthy (JVal.obj ufields) = true := by
      cases ufields with
      | nil => exact absurd rfl hne
      | cons u us => rfl
    have htt2 : truthy (JVal.str ts) = true := by simp [truthy, hts_ne]
    simp [lineStepDyn, h1, hm, htr, hid, htt, hts, htd, hu, hhash, mergeDyn, hlook,
      htr2, htt2]

/-- C4 amended witness: a non-assistant object line is skipped; an
invalid-JSON line is skipped and the scan continues with the next line; a
qualifying line carrying only `input_tokens` in its usage block inserts one
entry whose other three counters default to 0. -/
theorem parser_skip_semantics_witness :
    lineStepDyn 0 [] (some (.obj [("type", JVal.str "user")])) = ([], false) ∧
    processFileDyn 0 []
      [none, some (JVal.obj [("type", JVal.str "assistant"),
        ("message", JVal.obj [("id", JVal.str "m1"),
          ("usage", JVal.obj [("input_tokens", JVal.num 10)])]),
        ("timestamp", JVal.str "2025-01-05T12:00:00Z")])] =
      processFileDyn 0 []
        [some (JVal.obj [("type", JVal.str "assistant"),
          ("message", JVal.obj [("id", JVal.str "m1"),
            ("usage", JVal.obj [("input_tokens", JVal.num 10)])]),
          ("timestamp", JVal.str "2025-01-05T12:00:00Z")])] ∧
    lineStepDyn 0 [] (some (.obj [("type", JVal.str "assistant"),
      ("message", JVal.obj [("id", JVal.str "m1"),
        ("usage", JVal.obj [("input_tokens", JVal.num 10)])]),
      ("timestamp", JVal.str "2025-01-05T12:00:00Z")])) =
      ([(JVal.str "m1", ⟨"2025-01-05", JVal.num 10, JVal.num 0, JVal.num 0,
        JVal.num 0⟩)], false) := by
  refine ⟨?_, ?_, ?_⟩
  · exact (parser_skip_semantics 0 [] [("type", JVal.str "user")] [] [] "" none []).2.1
      (by decide)
  · exact (parser_skip_semantics 0 [] [] [] [] "" none
      [some (JVal.obj [("type", JVal.str "assistant"),
        ("message", JVal.obj [("id", JVal.str "m1"),
          ("usage", JVal.obj [("input_tokens", JVal.num 10)])]),
        ("timestamp", JVal.str "2025-01-05T12:00:00Z")])]).2.2.2.2.2.2.2.1 rfl
  · exact (parser_skip_semantics 0 []
      [("type", JVal.str "assistant"),
       ("message", JVal.obj [("id", JVal.str "m1"),
         ("usage", JVal.obj [("input_tokens", JVal.num 10)])]),
       ("timestamp", JVal.str "2025-01-05T12:00:00Z")]
      [("id", JVal.str "m1"), ("usage", JVal.obj [("input_tokens", JVal.num 10)])]
      [("input_tokens", JVal.num 10)] "2025-01-05T12:00:00Z" none
      []).2.2.2.2.2.2.2.2 (by decide) rfl rfl (by simp) rfl rfl
      "2025-01-05" (by decide) rfl rfl
